import Mathlib

/-!
Shallow embedding of the 3ds.md note-taking application (`source/main.c`).

A fixed-size `char` buffer is observed through the C string it holds, so a
`List Char` stands for the characters up to (and excluding) the null
terminator.  Bytes sitting beyond the terminator are not observable through
any string operation of the program and are dropped by the model.
-/

set_option maxRecDepth 8192

/-- `MAX_NOTES` from `main.c`: capacity of the note store. -/
def MAX_NOTES : Nat := 10

/-- `NOTE_CONTENT_LEN` from `main.c`: size of a note's content buffer,
terminator included. -/
def NOTE_CONTENT_LEN : Nat := 1024

/-- `TITLE_LEN` from `main.c`: size of a note's title buffer, terminator
included. -/
def TITLE_LEN : Nat := 32

/-- The `Note` struct of `main.c`: a title and a content string, each the
observable value of a fixed-size char buffer. -/
structure Note where
  title : List Char
  content : List Char
  deriving DecidableEq, Repr, Inhabited

/-- `safe_string_copy(dest, src, dest_size)` from `main.c`.  `dest` is the
string previously held by the destination buffer; the function returns
without writing when `dest_size == 0` (the model never passes NULL, the
other early-out of the C code).  Otherwise `copy_len` bytes of `src` are
copied and a terminator is written right after them, so the buffer now
holds the first `copy_len` characters of `src`. -/
def safe_string_copy (dest src : List Char) (dest_size : Nat) : List Char :=
  if dest_size = 0 then dest
  else src.take (if src.length < dest_size - 1 then src.length else dest_size - 1)

/-- `append_to_note(note, new_content)` from `main.c`: a no-op unless
`current_len + new_len + 2 < NOTE_CONTENT_LEN`; otherwise a `'\n'`
separator follows non-empty content and the new text is written into the
remaining space of the content buffer with `safe_string_copy`. -/
def append_to_note (note : Note) (new_content : List Char) : Note :=
  let current_len := note.content.length
  let new_len := new_content.length
  if current_len + new_len + 2 ≥ NOTE_CONTENT_LEN then note
  else
    let content1 := if current_len > 0 then note.content ++ ['\n'] else note.content
    { note with content :=
        content1 ++ safe_string_copy [] new_content (NOTE_CONTENT_LEN - content1.length) }

theorem safe_string_copy_of_lt (d s : List Char) (c : Nat) (h : s.length < c) :
    safe_string_copy d s c = s := by
  unfold safe_string_copy
  rw [if_neg (by omega : ¬ c = 0)]
  split
  · exact List.take_length s
  · exact List.take_of_length_le (by omega)

/-- C3 (amended): for a positive capacity `c` the result of
`safe_string_copy` has length at most `c - 1` (so at most `c` buffer bytes
are written, terminator included), equals the source exactly when the
source fits, and is empty when the source is empty; with capacity `0` the
function writes nothing, leaving the destination unchanged rather than
empty. -/
theorem safe_string_copy_spec (d s : List Char) (c : Nat) :
    (0 < c →
      (safe_string_copy d s c).length ≤ c - 1 ∧
      (s.length < c → safe_string_copy d s c = s) ∧
      (s = [] → safe_string_copy d s c = [])) ∧
    (c = 0 → safe_string_copy d s c = d) := by
  constructor
  · intro hc
    refine ⟨?_, fun h => safe_string_copy_of_lt d s c h, fun h => ?_⟩
    · unfold safe_string_copy
      rw [if_neg (by omega : ¬ c = 0)]
      split
      · simp only [List.length_take, inf_le_left, inf_le_right]
        omega
      · simp only [List.length_take]
        omega
    · subst h
      unfold safe_string_copy
      rw [if_neg (by omega : ¬ c = 0)]
      exact List.take_nil
  · intro h
    subst h
    rfl

/-- Witness for C3: concrete instances discharging the hypotheses of
`safe_string_copy_spec`. -/
theorem safe_string_copy_spec_witness :
    (safe_string_copy ['a', 'b'] ['x'] 2).length ≤ 1 ∧
    safe_string_copy ['a', 'b'] ['x'] 2 = ['x'] ∧
    safe_string_copy ['x', 'y'] [] 3 = [] ∧
    safe_string_copy ['a'] ['x'] 0 = ['a'] :=
  ⟨((safe_string_copy_spec ['a', 'b'] ['x'] 2).1 (by decide)).1,
   ((safe_string_copy_spec ['a', 'b'] ['x'] 2).1 (by decide)).2.1 (by decide),
   ((safe_string_copy_spec ['x', 'y'] [] 3).1 (by decide)).2.2 rfl,
   (safe_string_copy_spec ['a'] ['x'] 0).2 rfl⟩

/-- C3 counterexample: with capacity `0` the function returns without
writing, so the destination keeps its previous value — the claim's "if c is
zero it produces an empty result" fails. -/
theorem safe_string_copy_cap_zero_cex :
    safe_string_copy ['a'] [] 0 = ['a'] ∧ ¬ safe_string_copy ['a'] [] 0 = [] := by
  decide

/-- C2: appending text `t` to a note with content length `L` succeeds iff
`L + t.length + 2 < NOTE_CONTENT_LEN`; on success the content becomes the
old content, a `'\n'` separator when `L > 0`, then `t` in full, with the
title untouched; otherwise the note is unchanged.  In particular appending
3 characters to a 1020-character content is a no-op. -/
theorem append_to_note_spec (note : Note) (t : List Char) :
    (if note.content.length + t.length + 2 < NOTE_CONTENT_LEN then
       append_to_note note t =
         { note with content :=
             note.content ++ (if note.content.length = 0 then [] else ['\n']) ++ t }
     else append_to_note note t = note) ∧
    append_to_note { title := ['t'], content := List.replicate 1020 'a' } ['x', 'y', 'z'] =
      { title := ['t'], content := List.replicate 1020 'a' } := by
  constructor
  · split
    · rename_i h
      simp only [append_to_note]
      rw [if_neg (by omega)]
      rcases Nat.eq_zero_or_pos note.content.length with h0 | h0
      · rw [if_neg (by omega)]
        rw [safe_string_copy_of_lt _ _ _ (by omega)]
        simp [h0]
      · rw [if_pos h0]
        have hcap : t.length < NOTE_CONTENT_LEN - (note.content ++ ['\n']).length := by
          simp only [List.length_append, List.length_cons, List.length_nil]
          omega
        rw [safe_string_copy_of_lt _ _ _ hcap]
        simp [h0.ne', List.append_assoc]
    · rename_i h
      simp only [append_to_note]
      rw [if_pos (by omega)]
  · decide

/-- A directory entry of the notes directory: file name, whether the entry
is a regular file (`d_type == DT_REG`), and the file's bytes.  A list of
entries models the directory in the order `readdir` yields it. -/
structure DirEntry where
  name : List Char
  isRegular : Bool
  data : List Char
  deriving DecidableEq, Repr, Inhabited

/-- `save_note(title, content)` from `main.c`, acting on the modelled
directory: `fopen(..., "wb")` truncates an existing regular file of that
name (opening a non-regular entry of that name for writing fails and the
failure is ignored); otherwise it creates a new file, which the directory
listing yields after the existing entries. -/
def save_note (fs : List DirEntry) (title content : List Char) : List DirEntry :=
  if ∃ e ∈ fs, e.name = title then
    fs.map (fun e =>
      if e.name = title ∧ e.isRegular = true then { e with data := content } else e)
  else fs ++ [{ name := title, isRegular := true, data := content }]

/-- The `load_notes` loop of `main.c`: walk the directory entries in order
while fewer than `MAX_NOTES` notes are loaded; for each regular file, the
file name copied by `safe_string_copy` into the title buffer becomes the
title and the first `NOTE_CONTENT_LEN - 1` bytes become the content. -/
def load_notes_aux : List DirEntry → List Note → List Note
  | [], acc => acc
  | e :: rest, acc =>
    if acc.length < MAX_NOTES then
      if e.isRegular then
        load_notes_aux rest
          (acc ++ [{ title := safe_string_copy [] e.name TITLE_LEN,
                     content := e.data.take (NOTE_CONTENT_LEN - 1) }])
      else load_notes_aux rest acc
    else acc

/-- `load_notes()` from `main.c`: reset the store and fill it from the
directory listing. -/
def load_notes (fs : List DirEntry) : List Note := load_notes_aux fs []

theorem load_notes_aux_of_full (l : List DirEntry) (acc : List Note)
    (h : MAX_NOTES ≤ acc.length) : load_notes_aux l acc = acc := by
  cases l with
  | nil => rfl
  | cons e rest =>
    simp only [load_notes_aux]
    rw [if_neg (by omega)]

theorem load_notes_aux_append (l1 l2 : List DirEntry) (acc : List Note) :
    load_notes_aux (l1 ++ l2) acc = load_notes_aux l2 (load_notes_aux l1 acc) := by
  induction l1 generalizing acc with
  | nil => rfl
  | cons e rest ih =>
    simp only [List.cons_append, load_notes_aux]
    by_cases hlen : acc.length < MAX_NOTES
    · rw [if_pos hlen, if_pos hlen]
      by_cases hreg : e.isRegular = true
      · rw [if_pos hreg, if_pos hreg]
        exact ih _
      · rw [if_neg hreg, if_neg hreg]
        exact ih _
    · rw [if_neg hlen, if_neg hlen]
      exact (load_notes_aux_of_full l2 acc (by omega)).symm

theorem load_notes_aux_length (l : List DirEntry) (acc : List Note) :
    (load_notes_aux l acc).length ≤
      acc.length + (l.filter (fun e => e.isRegular)).length := by
  induction l generalizing acc with
  | nil => simp [load_notes_aux]
  | cons e rest ih =>
    simp only [load_notes_aux]
    by_cases hlen : acc.length < MAX_NOTES
    · rw [if_pos hlen]
      by_cases hreg : e.isRegular = true
      · rw [if_pos hreg]
        have h1 := ih (acc ++ [{ title := safe_string_copy [] e.name TITLE_LEN,
                                 content := e.data.take (NOTE_CONTENT_LEN - 1) }])
        simp only [List.length_append, List.length_cons, List.length_nil] at h1
        simp only [List.filter_cons, hreg, if_pos, List.length_cons]
        omega
      · rw [if_neg hreg]
        have h1 := ih acc
        simp only [List.filter_cons]
        rw [if_neg hreg]
        omega
    · rw [if_neg hlen]
      omega

/-- C4 (amended): when the saved title is within the title-buffer bound and
does not collide with an existing entry, the content fits the content
buffer, and the directory still holds fewer than `MAX_NOTES` regular files,
then `save_note` followed by `load_notes` yields a store containing a note
with that title and byte-identical content. -/
theorem save_load_roundtrip (fs : List DirEntry) (t c : List Char)
    (ht : t.length < TITLE_LEN) (hc : c.length ≤ NOTE_CONTENT_LEN - 1)
    (hfresh : ∀ e ∈ fs, ¬ e.name = t)
    (hcap : (fs.filter (fun e => e.isRegular)).length < MAX_NOTES) :
    ∃ n ∈ load_notes (save_note fs t c), n.title = t ∧ n.content = c := by
  have hsave : save_note fs t c =
      fs ++ [{ name := t, isRegular := true, data := c }] := by
    unfold save_note
    rw [if_neg]
    rintro ⟨e, he, hname⟩
    exact hfresh e he hname
  rw [hsave, load_notes, load_notes_aux_append]
  have hlen : (load_notes_aux fs []).length < MAX_NOTES :=
    lt_of_le_of_lt (by simpa using load_notes_aux_length fs []) hcap
  simp only [load_notes_aux]
  rw [if_pos hlen, if_pos trivial]
  refine ⟨_, List.mem_append_right _ (List.mem_singleton_self _), ?_, ?_⟩
  · exact safe_string_copy_of_lt [] t TITLE_LEN ht
  · exact List.take_of_length_le hc

/-- Witness for C4: saving a fresh note into an empty directory and
loading back finds it. -/
theorem save_load_roundtrip_witness :
    ∃ n ∈ load_notes (save_note [] ['t', 'o', 'd', 'o'] ['h', 'i']),
      n.title = ['t', 'o', 'd', 'o'] ∧ n.content = ['h', 'i'] :=
  save_load_roundtrip [] ['t', 'o', 'd', 'o'] ['h', 'i']
    (by decide) (by decide) (by decide) (by decide)

/-- Ten distinct regular files, filling the store to capacity on load. -/
def tenFiles : List DirEntry :=
  [{ name := ['0'], isRegular := true, data := [] },
   { name := ['1'], isRegular := true, data := [] },
   { name := ['2'], isRegular := true, data := [] },
   { name := ['3'], isRegular := true, data := [] },
   { name := ['4'], isRegular := true, data := [] },
   { name := ['5'], isRegular := true, data := [] },
   { name := ['6'], isRegular := true, data := [] },
   { name := ['7'], isRegular := true, data := [] },
   { name := ['8'], isRegular := true, data := [] },
   { name := ['9'], isRegular := true, data := [] }]

/-- C4 counterexample: with ten regular files already in the directory, a
fresh non-colliding title whose content fits is saved, yet `load_notes`
stops at `MAX_NOTES` notes and the saved note is not found — the claim as
stated (no capacity proviso) is false. -/
theorem save_load_roundtrip_cex :
    (∀ e ∈ tenFiles, ¬ e.name = ['x']) ∧
    (['h', 'i'] : List Char).length ≤ NOTE_CONTENT_LEN - 1 ∧
    ¬ ∃ n ∈ load_notes (save_note tenFiles ['x'] ['h', 'i']),
        n.title = ['x'] ∧ n.content = ['h', 'i'] := by
  decide

/-- The `AppMode` enum of `main.c`. -/
inductive AppMode where
  | MODE_MENU
  | MODE_NOTE_LIST
  | MODE_VIEW_NOTE
  | MODE_EDIT_NOTE
  deriving DecidableEq, Repr

open AppMode

/-- One frame of external input: the button-down edges read from
`hidKeysDown`, and for frames that open the software keyboard the text it
returns together with the dialog button pressed (`kbAccept = true` models
`button == SWKBD_BUTTON_RIGHT`). -/
structure FrameInput where
  keyUp : Bool
  keyDown : Bool
  keyA : Bool
  keyB : Bool
  keyStart : Bool
  kbText : List Char
  kbAccept : Bool
  deriving DecidableEq, Repr

/-- The mutable globals of `main.c` driving the application: the ten-slot
`notes` array, `note_count` (only ever incremented from 0, hence a natural
number), `selectedMenu`, `selectedNote` (a C `int`, `-1` when nothing is
selected) and `mode`. -/
structure AppState where
  notes : List Note
  note_count : Nat
  selectedMenu : Int
  selectedNote : Int
  mode : AppMode
  deriving DecidableEq, Repr

/-- The KEY_UP / KEY_DOWN statements of the `MODE_MENU` block, applied in
program order with C's truncated `%` (`Int.tmod`). -/
def menuNav (s : AppState) (inp : FrameInput) : AppState :=
  let s1 := if inp.keyUp then
      { s with selectedMenu := (s.selectedMenu - 1 + 2).tmod 2 }
    else s
  if inp.keyDown then { s1 with selectedMenu := (s1.selectedMenu + 1).tmod 2 } else s1

/-- The KEY_A statement of the `MODE_MENU` block: with "New Note" selected
the title keyboard opens and, on an accepted non-empty title with spare
store capacity, the note is created in the slot `note_count`, selected,
and viewed (the `save_note` call touches only the file system); with
"View Notes" selected a non-empty store opens the list at index 0. -/
def stepMenuA (s : AppState) (inp : FrameInput) : AppState :=
  if inp.keyA then
    if s.selectedMenu = 0 then
      if inp.kbAccept = true ∧ inp.kbText ≠ [] ∧ s.note_count < MAX_NOTES then
        { s with
          notes := s.notes.set s.note_count
            { title := safe_string_copy (s.notes.getD s.note_count default).title
                inp.kbText TITLE_LEN,
              content := [] },
          selectedNote := (s.note_count : Int),
          note_count := s.note_count + 1,
          mode := MODE_VIEW_NOTE }
      else s
    else
      if s.note_count > 0 then { s with mode := MODE_NOTE_LIST, selectedNote := 0 }
      else s
  else s

/-- The whole `MODE_MENU` input block of one frame. -/
def stepMenu (s : AppState) (inp : FrameInput) : AppState :=
  stepMenuA (menuNav s inp) inp

/-- The KEY_B / KEY_UP / KEY_DOWN statements of the `MODE_NOTE_LIST`
block, in program order: KEY_B switches back to the menu, the arrows move
the selection with wraparound by C's truncated `%`. -/
def listNav (s : AppState) (inp : FrameInput) : AppState :=
  let s1 := if inp.keyB then { s with mode := MODE_MENU } else s
  let s2 := if inp.keyUp then
      { s1 with selectedNote :=
          (s1.selectedNote - 1 + (s1.note_count : Int)).tmod (s1.note_count : Int) }
    else s1
  if inp.keyDown then
    { s2 with selectedNote := (s2.selectedNote + 1).tmod (s2.note_count : Int) }
  else s2

/-- The whole `MODE_NOTE_LIST` input block: after the navigation
statements, KEY_A with a non-negative selection opens the note view. -/
def stepList (s : AppState) (inp : FrameInput) : AppState :=
  let s3 := listNav s inp
  if inp.keyA = true ∧ 0 ≤ s3.selectedNote then { s3 with mode := MODE_VIEW_NOTE }
  else s3

/-- The KEY_B statement of the `MODE_VIEW_NOTE` block: go back to the
list, then to the menu instead when `selectedNote >= note_count`. -/
def viewBack (s : AppState) (inp : FrameInput) : AppState :=
  if inp.keyB then
    let t := { s with mode := MODE_NOTE_LIST }
    if t.selectedNote ≥ (t.note_count : Int) then { t with mode := MODE_MENU } else t
  else s

/-- The whole `MODE_VIEW_NOTE` input block: after the KEY_B statement,
KEY_A opens the line keyboard and an accepted input is appended to
`notes[selectedNote]` (the `save_note` call touches only the file
system). -/
def stepView (s : AppState) (inp : FrameInput) : AppState :=
  let s1 := viewBack s inp
  if inp.keyA = true ∧ inp.kbAccept = true then
    let appended :=
      append_to_note (s1.notes.getD s1.selectedNote.toNat default) inp.kbText
    { s1 with notes := s1.notes.set s1.selectedNote.toNat appended }
  else s1

/-- One pass of the main loop's input handling: the `else if` chain
dispatches on the mode read at the top of the frame; KEY_START in the menu
breaks out of the loop, leaving the state untouched. -/
def step (s : AppState) (inp : FrameInput) : AppState :=
  if s.mode = MODE_MENU then
    if inp.keyStart then s else stepMenu s inp
  else if s.mode = MODE_NOTE_LIST then stepList s inp
  else if s.mode = MODE_VIEW_NOTE then stepView s inp
  else s

/-- The state at entry to the main loop when the notes directory starts
out empty: `load_notes` finds nothing and the globals keep their
initializers. -/
def initState : AppState :=
  { notes := List.replicate MAX_NOTES default,
    note_count := 0,
    selectedMenu := 0,
    selectedNote := -1,
    mode := MODE_MENU }

/-- The states the main loop can reach from `initState` under some finite
sequence of frame inputs. -/
def reachable (s : AppState) : Prop :=
  ∃ l : List FrameInput, s = l.foldl step initState

/-- Inductive invariant of the main loop. -/
def LoopInv (s : AppState) : Prop :=
  s.note_count ≤ MAX_NOTES ∧
  s.notes.length = MAX_NOTES ∧
  (s.selectedMenu = 0 ∨ s.selectedMenu = 1) ∧
  s.mode ≠ MODE_EDIT_NOTE ∧
  (s.selectedNote = -1 ∨ (0 ≤ s.selectedNote ∧ s.selectedNote < (s.note_count : Int))) ∧
  ((s.mode = MODE_NOTE_LIST ∨ s.mode = MODE_VIEW_NOTE) →
    0 < s.note_count ∧ 0 ≤ s.selectedNote ∧ s.selectedNote < (s.note_count : Int))

theorem tmod_range (x n : Int) (hx : 0 ≤ x) (hn : 0 < n) :
    0 ≤ x.tmod n ∧ x.tmod n < n := by
  rw [Int.tmod_eq_emod hx (le_of_lt hn)]
  exact ⟨Int.emod_nonneg x (by omega), Int.emod_lt_of_pos x hn⟩

theorem menuNav_spec (s : AppState) (inp : FrameInput)
    (h : s.selectedMenu = 0 ∨ s.selectedMenu = 1) :
    (menuNav s inp).notes = s.notes ∧
    (menuNav s inp).note_count = s.note_count ∧
    (menuNav s inp).selectedNote = s.selectedNote ∧
    (menuNav s inp).mode = s.mode ∧
    ((menuNav s inp).selectedMenu = 0 ∨ (menuNav s inp).selectedMenu = 1) := by
  simp only [menuNav]
  by_cases hu : inp.keyUp = true <;> by_cases hd : inp.keyDown = true
  · rw [if_pos hd, if_pos hu]
    refine ⟨rfl, rfl, rfl, rfl, ?_⟩
    rcases h with h | h <;> rw [h] <;> dsimp only <;> decide
  · rw [if_neg hd, if_pos hu]
    refine ⟨rfl, rfl, rfl, rfl, ?_⟩
    rcases h with h | h <;> rw [h] <;> dsimp only <;> decide
  · rw [if_pos hd, if_neg hu]
    refine ⟨rfl, rfl, rfl, rfl, ?_⟩
    rcases h with h | h <;> rw [h] <;> dsimp only <;> decide
  · rw [if_neg hd, if_neg hu]
    exact ⟨rfl, rfl, rfl, rfl, h⟩

theorem stepMenuA_inv (s : AppState) (inp : FrameInput) (h : LoopInv s) :
    LoopInv (stepMenuA s inp) := by
  obtain ⟨h1, h2, h3, h4, h5, h6⟩ := h
  unfold stepMenuA
  by_cases ha : inp.keyA = true
  · rw [if_pos ha]
    by_cases hm0 : s.selectedMenu = 0
    · rw [if_pos hm0]
      by_cases hg : inp.kbAccept = true ∧ inp.kbText ≠ [] ∧ s.note_count < MAX_NOTES
      · rw [if_pos hg]
        obtain ⟨-, -, hcap⟩ := hg
        unfold LoopInv
        refine ⟨?_, ?_, ?_, ?_, ?_, ?_⟩ <;> dsimp only
        · omega
        · rw [List.length_set]; exact h2
        · exact h3
        · decide
        · right; omega
        · intro _; omega
      · rw [if_neg hg]; exact ⟨h1, h2, h3, h4, h5, h6⟩
    · rw [if_neg hm0]
      by_cases hp : s.note_count > 0
      · rw [if_pos hp]
        unfold LoopInv
        refine ⟨h1, h2, h3, ?_, ?_, ?_⟩ <;> dsimp only
        · decide
        · right; omega
        · intro _; refine ⟨hp, by omega, by omega⟩
      · rw [if_neg hp]; exact ⟨h1, h2, h3, h4, h5, h6⟩
  · rw [if_neg ha]; exact ⟨h1, h2, h3, h4, h5, h6⟩

theorem stepMenu_inv (s : AppState) (inp : FrameInput) (h : LoopInv s) :
    LoopInv (stepMenu s inp) := by
  obtain ⟨h1, h2, h3, h4, h5, h6⟩ := h
  obtain ⟨hn, hc, hsel, hmode, hmenu⟩ := menuNav_spec s inp h3
  unfold stepMenu
  apply stepMenuA_inv
  exact ⟨by rw [hc]; exact h1, by rw [hn]; exact h2, hmenu, by rw [hmode]; exact h4,
         by rw [hsel, hc]; exact h5, by rw [hmode, hsel, hc]; exact h6⟩

theorem listNav_spec (s : AppState) (inp : FrameInput) (hc : 0 < s.note_count)
    (hs0 : 0 ≤ s.selectedNote) (hs1 : s.selectedNote < (s.note_count : Int)) :
    (listNav s inp).notes = s.notes ∧
    (listNav s inp).note_count = s.note_count ∧
    (listNav s inp).selectedMenu = s.selectedMenu ∧
    ((listNav s inp).mode = s.mode ∨ (listNav s inp).mode = MODE_MENU) ∧
    0 ≤ (listNav s inp).selectedNote ∧
    (listNav s inp).selectedNote < (s.note_count : Int) := by
  have hpos : (0 : Int) < (s.note_count : Int) := by omega
  obtain ⟨hA0, hA1⟩ := tmod_range (s.selectedNote - 1 + (s.note_count : Int))
    (s.note_count : Int) (by omega) hpos
  obtain ⟨hB0, hB1⟩ := tmod_range (s.selectedNote + 1) (s.note_count : Int)
    (by omega) hpos
  obtain ⟨hC0, hC1⟩ := tmod_range
    ((s.selectedNote - 1 + (s.note_count : Int)).tmod (s.note_count : Int) + 1)
    (s.note_count : Int) (by omega) hpos
  simp only [listNav]
  by_cases hb : inp.keyB = true <;> by_cases hu : inp.keyUp = true <;>
    by_cases hd : inp.keyDown = true
  · rw [if_pos hd, if_pos hu, if_pos hb]
    exact ⟨rfl, rfl, rfl, Or.inr rfl, hC0, hC1⟩
  · rw [if_neg hd, if_pos hu, if_pos hb]
    exact ⟨rfl, rfl, rfl, Or.inr rfl, hA0, hA1⟩
  · rw [if_pos hd, if_neg hu, if_pos hb]
    exact ⟨rfl, rfl, rfl, Or.inr rfl, hB0, hB1⟩
  · rw [if_neg hd, if_neg hu, if_pos hb]
    exact ⟨rfl, rfl, rfl, Or.inr rfl, hs0, hs1⟩
  · rw [if_pos hd, if_pos hu, if_neg hb]
    exact ⟨rfl, rfl, rfl, Or.inl rfl, hC0, hC1⟩
  · rw [if_neg hd, if_pos hu, if_neg hb]
    exact ⟨rfl, rfl, rfl, Or.inl rfl, hA0, hA1⟩
  · rw [if_pos hd, if_neg hu, if_neg hb]
    exact ⟨rfl, rfl, rfl, Or.inl rfl, hB0, hB1⟩
  · rw [if_neg hd, if_neg hu, if_neg hb]
    exact ⟨rfl, rfl, rfl, Or.inl rfl, hs0, hs1⟩

theorem stepList_inv (s : AppState) (inp : FrameInput) (h : LoopInv s)
    (hm : s.mode = MODE_NOTE_LIST) : LoopInv (stepList s inp) := by
  obtain ⟨h1, h2, h3, h4, h5, h6⟩ := h
  obtain ⟨hc, hs0, hs1⟩ := h6 (Or.inl hm)
  obtain ⟨hn, hcnt, hmenu, hmode, hsel0, hsel1⟩ := listNav_spec s inp hc hs0 hs1
  simp only [stepList]
  by_cases ha : inp.keyA = true ∧ 0 ≤ (listNav s inp).selectedNote
  · rw [if_pos ha]
    refine ⟨?_, ?_, ?_, ?_, ?_, ?_⟩ <;> dsimp only
    · rw [hcnt]; exact h1
    · rw [hn]; exact h2
    · rw [hmenu]; exact h3
    · decide
    · right; exact ⟨hsel0, by rw [hcnt]; exact hsel1⟩
    · intro _
      exact ⟨by rw [hcnt]; exact hc, hsel0, by rw [hcnt]; exact hsel1⟩
  · rw [if_neg ha]
    refine ⟨by rw [hcnt]; exact h1, by rw [hn]; exact h2, by rw [hmenu]; exact h3,
            ?_, ?_, ?_⟩
    · rcases hmode with hmo | hmo <;> rw [hmo]
      · rw [hm]; decide
      · decide
    · right; exact ⟨hsel0, by rw [hcnt]; exact hsel1⟩
    · intro hx
      exact ⟨by rw [hcnt]; exact hc, hsel0, by rw [hcnt]; exact hsel1⟩

theorem viewBack_spec (s : AppState) (inp : FrameInput)
    (hs1 : s.selectedNote < (s.note_count : Int)) :
    viewBack s inp = if inp.keyB = true then { s with mode := MODE_NOTE_LIST } else s := by
  simp only [viewBack]
  by_cases hb : inp.keyB = true
  · have hno : ¬ (({ s with mode := MODE_NOTE_LIST } : AppState).selectedNote ≥
        ((({ s with mode := MODE_NOTE_LIST } : AppState).note_count : Nat) : Int)) := by
      dsimp only
      omega
    rw [if_pos hb, if_neg hno, if_pos hb]
  · rw [if_neg hb, if_neg hb]

theorem stepView_inv (s : AppState) (inp : FrameInput) (h : LoopInv s)
    (hm : s.mode = MODE_VIEW_NOTE) : LoopInv (stepView s inp) := by
  obtain ⟨h1, h2, h3, h4, h5, h6⟩ := h
  obtain ⟨hc, hs0, hs1⟩ := h6 (Or.inr hm)
  simp only [stepView]
  rw [viewBack_spec s inp hs1]
  by_cases hb : inp.keyB = true
  · rw [if_pos hb]
    by_cases ha : inp.keyA = true ∧ inp.kbAccept = true
    · rw [if_pos ha]
      refine ⟨?_, ?_, ?_, ?_, ?_, ?_⟩ <;> dsimp only
      · exact h1
      · rw [List.length_set]; exact h2
      · exact h3
      · decide
      · right; exact ⟨hs0, hs1⟩
      · intro _; exact ⟨hc, hs0, hs1⟩
    · rw [if_neg ha]
      refine ⟨h1, h2, h3, ?_, ?_, ?_⟩ <;> dsimp only
      · decide
      · right; exact ⟨hs0, hs1⟩
      · intro _; exact ⟨hc, hs0, hs1⟩
  · rw [if_neg hb]
    by_cases ha : inp.keyA = true ∧ inp.kbAccept = true
    · rw [if_pos ha]
      refine ⟨?_, ?_, ?_, ?_, ?_, ?_⟩ <;> dsimp only
      · exact h1
      · rw [List.length_set]; exact h2
      · exact h3
      · exact h4
      · right; exact ⟨hs0, hs1⟩
      · intro _; exact ⟨hc, hs0, hs1⟩
    · rw [if_neg ha]
      exact ⟨h1, h2, h3, h4, h5, h6⟩

theorem step_inv (s : AppState) (inp : FrameInput) (h : LoopInv s) :
    LoopInv (step s inp) := by
  unfold step
  by_cases h0 : s.mode = MODE_MENU
  · rw [if_pos h0]
    by_cases hst : inp.keyStart = true
    · rw [if_pos hst]; exact h
    · rw [if_neg hst]; exact stepMenu_inv s inp h
  · rw [if_neg h0]
    by_cases hl : s.mode = MODE_NOTE_LIST
    · rw [if_pos hl]; exact stepList_inv s inp h hl
    · rw [if_neg hl]
      by_cases hv : s.mode = MODE_VIEW_NOTE
      · rw [if_pos hv]; exact stepView_inv s inp h hv
      · rw [if_neg hv]; exact h

theorem foldl_step_inv (l : List FrameInput) (s : AppState) (h : LoopInv s) :
    LoopInv (l.foldl step s) := by
  induction l generalizing s with
  | nil => exact h
  | cons e rest ih => exact ih (step s e) (step_inv s e h)

theorem initState_inv : LoopInv initState := by
  unfold LoopInv
  decide

theorem reachable_inv (s : AppState) (h : reachable s) : LoopInv s := by
  obtain ⟨l, rfl⟩ := h
  exact foldl_step_inv l initState initState_inv

/-- A frame pressing only KEY_A, with the keyboard returning text `t` and
the accept button (`SWKBD_BUTTON_RIGHT`). -/
def confirmInput (t : List Char) : FrameInput :=
  { keyUp := false, keyDown := false, keyA := true, keyB := false, keyStart := false,
    kbText := t, kbAccept := true }

/-- A frame pressing only KEY_B. -/
def backInput : FrameInput :=
  { keyUp := false, keyDown := false, keyA := false, keyB := true, keyStart := false,
    kbText := [], kbAccept := false }

/-- A frame pressing only KEY_UP. -/
def upInput : FrameInput :=
  { keyUp := true, keyDown := false, keyA := false, keyB := false, keyStart := false,
    kbText := [], kbAccept := false }

/-- A frame pressing only KEY_DOWN. -/
def downInput : FrameInput :=
  { keyUp := false, keyDown := true, keyA := false, keyB := false, keyStart := false,
    kbText := [], kbAccept := false }

/-- C6: in every state reachable from the initial state (mode Menu,
count 0, selection -1) by any sequence of input events, `selectedNote` is
either -1 or a valid index strictly below `note_count`. -/
theorem selection_always_valid (s : AppState) (h : reachable s) :
    s.selectedNote = -1 ∨
      (0 ≤ s.selectedNote ∧ s.selectedNote < (s.note_count : Int)) :=
  (reachable_inv s h).2.2.2.2.1

/-- Witness for C6: the initial state is reachable and satisfies the
conclusion. -/
theorem selection_always_valid_witness :
    initState.selectedNote = -1 ∨
      (0 ≤ initState.selectedNote ∧
        initState.selectedNote < (initState.note_count : Int)) :=
  selection_always_valid initState ⟨[], rfl⟩

/-- C9: the declared mode `MODE_EDIT_NOTE` is a dead state — no state
reachable from the initial state by any sequence of input events is in
it. -/
theorem edit_mode_dead (s : AppState) (h : reachable s) :
    s.mode ≠ MODE_EDIT_NOTE :=
  (reachable_inv s h).2.2.2.1

/-- Witness for C9: the initial state is reachable and is not in
`MODE_EDIT_NOTE`. -/
theorem edit_mode_dead_witness : initState.mode ≠ MODE_EDIT_NOTE :=
  edit_mode_dead initState ⟨[], rfl⟩

/-- C7: in every reachable state that processes the note-list navigation
events (i.e. is in `MODE_NOTE_LIST`), the store is non-empty, so the
wraparound `% note_count` never divides by zero. -/
theorem list_nav_nonzero_count (s : AppState) (h : reachable s)
    (hm : s.mode = MODE_NOTE_LIST) :
    0 < s.note_count ∧ (s.note_count : Int) ≠ 0 := by
  have hx := ((reachable_inv s h).2.2.2.2.2 (Or.inl hm)).1
  exact ⟨hx, by omega⟩

/-- A run that creates a note from the menu and backs out into the note
list. -/
def listRun : List FrameInput := [confirmInput ['a'], backInput]

/-- Witness for C7: a concrete reachable `MODE_NOTE_LIST` state. -/
theorem list_nav_nonzero_count_witness :
    0 < (listRun.foldl step initState).note_count ∧
      (((listRun.foldl step initState).note_count : Nat) : Int) ≠ 0 :=
  list_nav_nonzero_count (listRun.foldl step initState) ⟨listRun, rfl⟩ (by decide)

theorem menuNav_preserves (s : AppState) (inp : FrameInput) :
    (menuNav s inp).notes = s.notes ∧ (menuNav s inp).note_count = s.note_count ∧
    (menuNav s inp).mode = s.mode := by
  simp only [menuNav]
  by_cases hu : inp.keyUp = true <;> by_cases hd : inp.keyDown = true
  · rw [if_pos hd, if_pos hu]; exact ⟨rfl, rfl, rfl⟩
  · rw [if_neg hd, if_pos hu]; exact ⟨rfl, rfl, rfl⟩
  · rw [if_pos hd, if_neg hu]; exact ⟨rfl, rfl, rfl⟩
  · rw [if_neg hd, if_neg hu]; exact ⟨rfl, rfl, rfl⟩

theorem load_notes_aux_le_max (l : List DirEntry) (acc : List Note)
    (h : acc.length ≤ MAX_NOTES) : (load_notes_aux l acc).length ≤ MAX_NOTES := by
  induction l generalizing acc with
  | nil => exact h
  | cons e rest ih =>
    simp only [load_notes_aux]
    by_cases hlen : acc.length < MAX_NOTES
    · rw [if_pos hlen]
      by_cases hreg : e.isRegular = true
      · rw [if_pos hreg]
        refine ih _ ?_
        simp only [List.length_append, List.length_cons, List.length_nil]
        omega
      · rw [if_neg hreg]; exact ih _ h
    · rw [if_neg hlen]; exact h

/-- C5: the store count never exceeds `MAX_NOTES` in any reachable state;
with a full store every menu-mode frame leaves the store and its count
untouched and cannot enter the view of a new note (creation is rejected);
and `load_notes` stops at `MAX_NOTES` notes no matter how many entries the
directory holds. -/
theorem store_capacity :
    (∀ s, reachable s → s.note_count ≤ MAX_NOTES) ∧
    (∀ s inp, s.note_count = MAX_NOTES → s.mode = MODE_MENU →
      (step s inp).note_count = MAX_NOTES ∧ (step s inp).notes = s.notes) ∧
    (∀ fs : List DirEntry, (load_notes fs).length ≤ MAX_NOTES) := by
  refine ⟨fun s h => (reachable_inv s h).1, fun s inp hfull hm => ?_,
          fun fs => load_notes_aux_le_max fs [] (Nat.zero_le _)⟩
  obtain ⟨hn, hc, hmo⟩ := menuNav_preserves s inp
  unfold step
  rw [if_pos hm]
  by_cases hst : inp.keyStart = true
  · rw [if_pos hst]; exact ⟨hfull, rfl⟩
  · rw [if_neg hst]
    unfold stepMenu stepMenuA
    by_cases ha : inp.keyA = true
    · rw [if_pos ha]
      by_cases hm0 : (menuNav s inp).selectedMenu = 0
      · rw [if_pos hm0]
        rw [if_neg]
        · exact ⟨by rw [hc, hfull], hn⟩
        · rintro ⟨-, -, hlt⟩
          rw [hc, hfull] at hlt
          exact absurd hlt (lt_irrefl _)
      · rw [if_neg hm0]
        by_cases hp : (menuNav s inp).note_count > 0
        · rw [if_pos hp]
          exact ⟨by dsimp only; rw [hc, hfull], by dsimp only; rw [hn]⟩
        · rw [if_neg hp]; exact ⟨by rw [hc, hfull], hn⟩
    · rw [if_neg ha]; exact ⟨by rw [hc, hfull], hn⟩

/-- A full menu-mode store, for instantiating the rejection part of the
capacity theorem. -/
def fullMenuState : AppState :=
  { notes := List.replicate MAX_NOTES default,
    note_count := MAX_NOTES,
    selectedMenu := 0,
    selectedNote := -1,
    mode := MODE_MENU }

/-- Twelve regular files in the directory (Scenario E of the spec). -/
def twelveFiles : List DirEntry :=
  tenFiles ++ [{ name := ['t'], isRegular := true, data := [] },
               { name := ['e'], isRegular := true, data := [] }]

/-- Witness for C5: concrete instances discharging the hypotheses of
`store_capacity`. -/
theorem store_capacity_witness :
    initState.note_count ≤ MAX_NOTES ∧
    ((step fullMenuState (confirmInput ['a'])).note_count = MAX_NOTES ∧
      (step fullMenuState (confirmInput ['a'])).notes = fullMenuState.notes) ∧
    (load_notes twelveFiles).length ≤ MAX_NOTES :=
  ⟨store_capacity.1 initState ⟨[], rfl⟩,
   store_capacity.2.1 fullMenuState (confirmInput ['a']) rfl rfl,
   store_capacity.2.2 twelveFiles⟩

/-- C8: in the note list with a valid selection, KEY_UP (previousNote)
moves the selection to `(i - 1 + count) % count` and KEY_DOWN (nextNote)
to `(i + 1) % count` — mathematical modulus, which agrees with C's
truncated `%` on these non-negative operands. -/
theorem wraparound_nav (s : AppState) (hm : s.mode = MODE_NOTE_LIST)
    (hs0 : 0 ≤ s.selectedNote) (hs1 : s.selectedNote < (s.note_count : Int)) :
    (step s upInput).selectedNote =
      (s.selectedNote - 1 + (s.note_count : Int)) % (s.note_count : Int) ∧
    (step s downInput).selectedNote =
      (s.selectedNote + 1) % (s.note_count : Int) := by
  constructor
  · unfold step
    rw [if_neg (by rw [hm]; decide), if_pos hm]
    show (s.selectedNote - 1 + (s.note_count : Int)).tmod (s.note_count : Int) = _
    exact Int.tmod_eq_emod (by omega) (by omega)
  · unfold step
    rw [if_neg (by rw [hm]; decide), if_pos hm]
    show (s.selectedNote + 1).tmod (s.note_count : Int) = _
    exact Int.tmod_eq_emod (by omega) (by omega)

/-- A note list of three notes with the first selected. -/
def listThree : AppState :=
  { notes := List.replicate MAX_NOTES default, note_count := 3, selectedMenu := 1,
    selectedNote := 0, mode := MODE_NOTE_LIST }

/-- The same list with the last note selected. -/
def listThreeLast : AppState := { listThree with selectedNote := 2 }

/-- Witness for C8 (Scenario D): with three notes, KEY_UP from index 0
wraps to 2 and KEY_DOWN from index 2 wraps to 0. -/
theorem wraparound_nav_witness :
    (step listThree upInput).selectedNote = 2 ∧
    (step listThreeLast downInput).selectedNote = 0 := by
  constructor
  · have h := (wraparound_nav listThree rfl (by decide) (by decide)).1
    rw [h]; decide
  · have h := (wraparound_nav listThreeLast rfl (by decide) (by decide)).2
    rw [h]; decide

theorem append_to_note_title (note : Note) (t : List Char) :
    (append_to_note note t).title = note.title := by
  simp only [append_to_note]
  split <;> rfl

/-- C10: the accepted confirm (append-line) event in ViewNote changes at
most the content of the selected note: mode, note count, both selection
indices, every other slot of the store, and the selected note's title are
unchanged — on the success branch and on the capacity-exceeded no-op
branch of `append_to_note` alike. -/
theorem append_frame_effect (s : AppState) (t : List Char) (j : Nat)
    (hm : s.mode = MODE_VIEW_NOTE) (hj : j ≠ s.selectedNote.toNat) :
    (step s (confirmInput t)).mode = s.mode ∧
    (step s (confirmInput t)).note_count = s.note_count ∧
    (step s (confirmInput t)).selectedNote = s.selectedNote ∧
    (step s (confirmInput t)).selectedMenu = s.selectedMenu ∧
    ((step s (confirmInput t)).notes)[j]? = (s.notes)[j]? ∧
    ((step s (confirmInput t)).notes.getD s.selectedNote.toNat default).title =
      (s.notes.getD s.selectedNote.toNat default).title := by
  have hstep : step s (confirmInput t) =
      { s with notes := s.notes.set s.selectedNote.toNat (append_to_note (s.notes.getD s.selectedNote.toNat default) t) } := by
    unfold step
    rw [if_neg (by rw [hm]; decide), if_neg (by rw [hm]; decide), if_pos hm]
    simp only [stepView, viewBack]
    rw [if_neg (by simp [confirmInput] : ¬ (confirmInput t).keyB = true),
        if_pos (⟨rfl, rfl⟩ :
          (confirmInput t).keyA = true ∧ (confirmInput t).kbAccept = true)]
    rfl
  rw [hstep]
  refine ⟨rfl, rfl, rfl, rfl, ?_, ?_⟩
  · dsimp only
    exact List.getElem?_set_ne (Ne.symm hj)
  · dsimp only
    by_cases hk : s.selectedNote.toNat < s.notes.length
    · rw [List.getD_eq_getElem?_getD, List.getD_eq_getElem?_getD,
          List.getElem?_set_self hk]
      simp only [Option.getD_some]
      rw [append_to_note_title]
    · rw [List.set_eq_of_length_le (by omega)]

/-- A reachable ViewNote state: one note created from the menu. -/
def viewRunState : AppState := step initState (confirmInput ['a'])

/-- Witness for C10: appending a line in a concrete ViewNote state. -/
theorem append_frame_effect_witness :
    (step viewRunState (confirmInput ['h', 'i'])).mode = viewRunState.mode ∧
    (step viewRunState (confirmInput ['h', 'i'])).note_count = viewRunState.note_count ∧
    (step viewRunState (confirmInput ['h', 'i'])).selectedNote =
      viewRunState.selectedNote ∧
    (step viewRunState (confirmInput ['h', 'i'])).selectedMenu =
      viewRunState.selectedMenu ∧
    ((step viewRunState (confirmInput ['h', 'i'])).notes)[3]? =
      (viewRunState.notes)[3]? ∧
    ((step viewRunState (confirmInput ['h', 'i'])).notes.getD
        viewRunState.selectedNote.toNat default).title =
      (viewRunState.notes.getD viewRunState.selectedNote.toNat default).title :=
  append_frame_effect viewRunState ['h', 'i'] 3 (by decide) (by decide)

/-- C1: creating a note directly from the menu stores it at index
`note_count` and then increments `note_count`, so the new ViewNote state
has `selectedNote = note_count - 1`; the back test
`selectedNote >= note_count` (comment: "If we were viewing a new note") is
therefore false and KEY_B moves to the note list, never to the menu — the
claimed ViewNote-back-to-Menu transition does not occur. -/
theorem back_from_new_note_goes_to_list :
    (step initState (confirmInput ['a'])).mode = MODE_VIEW_NOTE ∧
    (step initState (confirmInput ['a'])).note_count = 1 ∧
    (step initState (confirmInput ['a'])).selectedNote = 0 ∧
    (step (step initState (confirmInput ['a'])) backInput).mode = MODE_NOTE_LIST ∧
    ¬ (step (step initState (confirmInput ['a'])) backInput).mode = MODE_MENU := by
  decide
